import Mathlib

/-!
# Verification of the shapely coordinate/orientation core

A shallow embedding, in Lean 4, of the natively implemented core of the
`shapely` repository:

* `shapely/algorithms/cga.py` — `signed_area`, `_is_ccw_fallback`, `force_ccw`;
* `shapely/coordinates.py` — `transform`, `_transform`, `_transform_multi_vec`,
  `_transform2`, `_transform2_multi_vec`, `set_coordinates`;
* `shapely/geometry/polygon.py` — the `LinearRing` / `Polygon` constructors.

Modelling conventions:

* `float64` values are modelled as exact rationals (`ℚ`); the claims under
  study are algebraic statements about the algorithms, not about rounding.
* numpy's NaN signal value (used for a missing third dimension) is modelled
  by `Option`: `none` is NaN / "no z".
* Python exceptions are modelled with `Except`: a function that can raise
  returns `Except TErr α`.
* The GEOS-backed primitives (`shapely.lib.*`) are C code that is not part
  of this repository's sources; where a claim needs them they are modelled
  from the spec and marked `Modelled from the spec:` in their doc comment.
-/

namespace Shapely

/-- A 2-D point, the payload of the planar area computation
(`signed_area` slices `coords[:, :2]`). -/
abbrev P2 := ℚ × ℚ

/-- A stored coordinate: x, y and an optional z (`none` = the geometry has
no third dimension at this vertex). -/
abbrev Coord := ℚ × ℚ × Option ℚ

/-- Projection onto the first two coordinate axes, the embedding of
`np.array(ring.coords)[:, :2]` in `signed_area`. -/
def proj2 (c : Coord) : P2 := (c.1, c.2.1)

/-- Sum of `x_i * y_{i+1} - x_{i+1} * y_i` over adjacent pairs of a vertex
list (the standard shoelace cross-product sum).  Helper used to reason about
`signed_area`; not itself part of the source. -/
def crossSum : List P2 → ℚ
  | a :: b :: t => (a.1 * b.2 - b.1 * a.2) + crossSum (b :: t)
  | _ => 0

/-- Sum of `b.x * (c.y - a.y)` over consecutive windows `(a, b, c)` of a
vertex list.  This is exactly the numpy expression
`np.sum(xs[1:-1] * (ys[2:] - ys[:-2]))` on that list. -/
def triSum : List P2 → ℚ
  | a :: b :: c :: t => b.1 * (c.2 - a.2) + triSum (b :: c :: t)
  | _ => 0

/-- `(last).x * (second-to-last).y` of a list with at least two elements
(`0` otherwise).  Correction term relating `triSum` and `crossSum`. -/
def corr : List P2 → ℚ
  | [a, b] => b.1 * a.2
  | _ :: b :: c :: t => corr (b :: c :: t)
  | _ => 0

/-- Embedding of `shapely.algorithms.cga.signed_area` restricted to the
2-D vertex list: the source computes
`coords = np.array(ring.coords)[:, :2]`,
`xs, ys = np.vstack([coords, coords[1]]).T` and returns
`np.sum(xs[1:-1] * (ys[2:] - ys[:-2])) / 2.0`.
Appending `coords[1]` and summing `xs[1:-1] * (ys[2:] - ys[:-2])` is the
window sum `triSum` over the extended list.  (`coords[1]` raises if the
ring has fewer than two vertices; we use `getD`, and every theorem about
rings assumes at least two vertices.) -/
def signedArea2 (l : List P2) : ℚ :=
  triSum (l ++ [l.getD 1 (0, 0)]) / 2

/-- Embedding of `shapely.algorithms.cga.signed_area` on a ring's stored
coordinates: project onto the first two axes, then run the planar sum. -/
def signed_area (ring : List Coord) : ℚ :=
  signedArea2 (ring.map proj2)

/-- A closed ring in the sense of the spec (§3): at least two vertices and
first vertex equal to the last. -/
def ClosedRing (ring : List Coord) : Prop :=
  2 ≤ ring.length ∧ ring.getD 0 (0, 0, none) = ring.getD (ring.length - 1) (0, 0, none)

instance (ring : List Coord) : Decidable (ClosedRing ring) := by
  unfold ClosedRing; infer_instance

/-- Closedness of the projected 2-D list. -/
def Closed2 (l : List P2) : Prop :=
  2 ≤ l.length ∧ l.getD 0 (0, 0) = l.getD (l.length - 1) (0, 0)

theorem ClosedRing.proj {ring : List Coord} (h : ClosedRing ring) :
    Closed2 (ring.map proj2) := by
  obtain ⟨hlen, hend⟩ := h
  refine ⟨by simpa using hlen, ?_⟩
  have h0 : 0 < ring.length := by omega
  have h1 : ring.length - 1 < ring.length := by omega
  rw [List.getD_eq_getElem?_getD, List.getD_eq_getElem?_getD,
      List.getElem?_map, List.getElem?_map, List.length_map]
  rw [List.getD_eq_getElem?_getD, List.getD_eq_getElem?_getD] at hend
  rw [List.getElem?_eq_getElem h0, List.getElem?_eq_getElem h1] at *
  simp only [Option.getD_some, Option.map_some'] at *
  rw [hend]

theorem crossSum_concat (l : List P2) (a : P2) :
    crossSum (l ++ [a]) =
      crossSum l + (match l.getLast? with
        | some b => b.1 * a.2 - a.1 * b.2
        | none => 0) := by
  induction l with
  | nil => simp [crossSum]
  | cons b l' ih =>
    cases l' with
    | nil => simp [crossSum]
    | cons c t =>
      have : ((b :: c :: t) ++ [a]) = b :: ((c :: t) ++ [a]) := rfl
      rw [this]
      show (b.1 * c.2 - c.1 * b.2) + crossSum ((c :: t) ++ [a]) = _
      rw [ih]
      have : (b :: c :: t).getLast? = (c :: t).getLast? := by
        simp [List.getLast?]
      rw [this]
      show _ = (b.1 * c.2 - c.1 * b.2) + crossSum (c :: t) + _
      cases h : (c :: t).getLast? with
      | none => simp at h
      | some x => ring

theorem crossSum_reverse (l : List P2) : crossSum l.reverse = - crossSum l := by
  induction l with
  | nil => simp [crossSum]
  | cons a l' ih =>
    rw [List.reverse_cons, crossSum_concat, ih, List.getLast?_reverse]
    cases l' with
    | nil => simp [crossSum]
    | cons b t =>
      show -crossSum (b :: t) + _ = -((a.1 * b.2 - b.1 * a.2) + crossSum (b :: t))
      simp only [List.head?_cons]
      ring

theorem triSum_eq_crossSum_corr (l : List P2) (a b : P2) :
    triSum (a :: b :: l) = crossSum (a :: b :: l) - a.1 * b.2 + corr (a :: b :: l) := by
  induction l generalizing a b with
  | nil =>
    show (0 : ℚ) = (a.1 * b.2 - b.1 * a.2) + 0 - a.1 * b.2 + b.1 * a.2
    ring
  | cons c t ih =>
    show b.1 * (c.2 - a.2) + triSum (b :: c :: t) = _
    rw [ih]
    show _ = (a.1 * b.2 - b.1 * a.2) + crossSum (b :: c :: t) - a.1 * b.2 + corr (a :: b :: c :: t)
    have : corr (a :: b :: c :: t) = corr (b :: c :: t) := by
      cases t <;> rfl
    rw [this]
    ring

theorem corr_concat (l : List P2) (x : P2) (h : 1 ≤ l.length) :
    corr (l ++ [x]) = x.1 * ((l.getLast?).getD (0, 0)).2 := by
  induction l with
  | nil => simp at h
  | cons a l' ih =>
    cases l' with
    | nil => simp [corr]
    | cons b t =>
      have hl : ((a :: b :: t) ++ [x]) = a :: ((b :: t) ++ [x]) := rfl
      rw [hl]
      have hcorr : corr (a :: ((b :: t) ++ [x])) = corr ((b :: t) ++ [x]) := by
        cases t <;> rfl
      rw [hcorr, ih (by simp)]
      have : (a :: b :: t).getLast? = (b :: t).getLast? := by simp [List.getLast?]
      rw [this]

/-- For a closed 2-D ring, the source's window sum equals the standard
shoelace cross-product sum. -/
theorem signedArea2_eq_crossSum (l : List P2) (h : Closed2 l) :
    signedArea2 l = crossSum l / 2 := by
  obtain ⟨hlen, hend⟩ := h
  match l, hlen with
  | a :: b :: t, _ =>
    have hd1 : (a :: b :: t).getD 1 (0, 0) = b := rfl
    unfold signedArea2
    rw [hd1]
    have hext : ((a :: b :: t) ++ [b]) = a :: b :: (t ++ [b]) := by simp
    rw [hext, triSum_eq_crossSum_corr]
    have hback : (a :: b :: (t ++ [b])) = ((a :: b :: t) ++ [b]) := by simp
    rw [hback, crossSum_concat, corr_concat _ _ (by simp)]
    -- the last element of the ring is its first element
    have hlast : (a :: b :: t).getLast? = some a := by
      have hget : (a :: b :: t).getLast? = (a :: b :: t)[(a :: b :: t).length - 1]? :=
        List.getLast?_eq_getElem? _
      have h1 : (a :: b :: t).getD ((a :: b :: t).length - 1) (0, 0) = a := by
        rw [← hend]; rfl
      rw [List.getD_eq_getElem?_getD, ← hget] at h1
      cases hx : (a :: b :: t).getLast? with
      | none => simp at hx
      | some y => rw [hx] at h1; simp at h1; rw [h1]
    rw [hlast]
    show (crossSum (a :: b :: t) + (a.1 * b.2 - b.1 * a.2) - a.1 * b.2 + b.1 * a.2) / 2 = _
    ring

/-- Closedness is preserved by reversal (endpoints swap). -/
theorem closed2_reverse {l : List P2} (h : Closed2 l) : Closed2 l.reverse := by
  obtain ⟨hlen, hend⟩ := h
  refine ⟨by simpa using hlen, ?_⟩
  have h0 : 0 < l.length := by omega
  have h1 : l.length - 1 < l.length := by omega
  rw [List.getD_eq_getElem?_getD, List.getD_eq_getElem?_getD, List.length_reverse,
      List.getElem?_reverse (by omega), List.getElem?_reverse (by omega)]
  rw [List.getD_eq_getElem?_getD, List.getD_eq_getElem?_getD] at hend
  have e0 : l.length - 1 - 0 = l.length - 1 := by omega
  have e1 : l.length - 1 - (l.length - 1) = 0 := by omega
  rw [e0, e1, hend]

/-- A closed ring with fewer than four vertices (so two or three, the first
equal to the last) encloses no area: the window sum degenerates to zero. -/
theorem signed_area_degenerate (ring : List Coord) (h : ClosedRing ring)
    (hlen : ring.length < 4) : signed_area ring = 0 := by
  obtain ⟨h2, hend⟩ := h
  match ring, h2, hlen with
  | [a, b], _, _ =>
    have hab : a = b := by simpa [List.getD] using hend
    subst hab
    simp only [signed_area, List.map_cons, List.map_nil]
    show triSum [proj2 a, proj2 a, proj2 a] / 2 = 0
    show (((proj2 a).1 * ((proj2 a).2 - (proj2 a).2)) + triSum [proj2 a, proj2 a]) / 2 = 0
    show (((proj2 a).1 * ((proj2 a).2 - (proj2 a).2)) + 0) / 2 = 0
    ring
  | [a, b, c], _, _ =>
    have hac : a = c := by simpa [List.getD] using hend
    subst hac
    simp only [signed_area, List.map_cons, List.map_nil]
    show triSum [proj2 a, proj2 b, proj2 a, proj2 b] / 2 = 0
    show ((proj2 b).1 * ((proj2 a).2 - (proj2 a).2) + triSum [proj2 b, proj2 a, proj2 b]) / 2 = 0
    show ((proj2 b).1 * ((proj2 a).2 - (proj2 a).2) +
      ((proj2 a).1 * ((proj2 b).2 - (proj2 b).2) + triSum [proj2 a, proj2 b])) / 2 = 0
    show ((proj2 b).1 * ((proj2 a).2 - (proj2 a).2) +
      ((proj2 a).1 * ((proj2 b).2 - (proj2 b).2) + 0)) / 2 = 0
    ring

theorem closedRing_reverse {ring : List Coord} (h : ClosedRing ring) :
    ClosedRing ring.reverse := by
  obtain ⟨hlen, hend⟩ := h
  refine ⟨by simpa using hlen, ?_⟩
  have h0 : 0 < ring.length := by omega
  have h1 : ring.length - 1 < ring.length := by omega
  rw [List.getD_eq_getElem?_getD, List.getD_eq_getElem?_getD, List.length_reverse,
      List.getElem?_reverse (by omega), List.getElem?_reverse (by omega)]
  rw [List.getD_eq_getElem?_getD, List.getD_eq_getElem?_getD] at hend
  have e0 : ring.length - 1 - 0 = ring.length - 1 := by omega
  have e1 : ring.length - 1 - (ring.length - 1) = 0 := by omega
  rw [e0, e1, hend]

/-- C8: for every closed ring, reversing the point order of the ring
(closure preserved) negates the signed area:
`signed_area (reverse ring) = - signed_area ring`. -/
theorem signed_area_reverse (ring : List Coord) (h : ClosedRing ring) :
    signed_area ring.reverse = - signed_area ring := by
  have h2 : Closed2 (ring.map proj2) := h.proj
  unfold signed_area
  rw [List.map_reverse, signedArea2_eq_crossSum _ (closed2_reverse h2),
      signedArea2_eq_crossSum _ h2, crossSum_reverse]
  ring

/-- Witness for C8 at the unit square ring. -/
theorem signed_area_reverse_witness :
    ClosedRing [((0 : ℚ), (0 : ℚ), (none : Option ℚ)), (1, 0, none), (1, 1, none),
        (0, 1, none), (0, 0, none)] ∧
      signed_area [((0 : ℚ), (0 : ℚ), (none : Option ℚ)), (1, 0, none), (1, 1, none),
          (0, 1, none), (0, 0, none)].reverse =
        - signed_area [((0 : ℚ), (0 : ℚ), (none : Option ℚ)), (1, 0, none), (1, 1, none),
          (0, 1, none), (0, 0, none)] :=
  ⟨by decide, signed_area_reverse _ (by decide)⟩

/-- `crossSum` written as an index sum over adjacent pairs. -/
theorem crossSum_eq_sum (l : List P2) :
    crossSum l = ∑ i in Finset.range (l.length - 1),
      ((l.getD i (0, 0)).1 * (l.getD (i + 1) (0, 0)).2 -
        (l.getD (i + 1) (0, 0)).1 * (l.getD i (0, 0)).2) := by
  induction l with
  | nil => simp [crossSum]
  | cons a l' ih =>
    cases l' with
    | nil => simp [crossSum]
    | cons b t =>
      show (a.1 * b.2 - b.1 * a.2) + crossSum (b :: t) = _
      rw [ih]
      have hlen : (a :: b :: t).length - 1 = ((b :: t).length - 1) + 1 := by
        simp
      rw [hlen, Finset.sum_range_succ']
      have h2 : ∑ i in Finset.range ((b :: t).length - 1),
          (((a :: b :: t).getD (i + 1) (0, 0)).1 * ((a :: b :: t).getD (i + 1 + 1) (0, 0)).2 -
            ((a :: b :: t).getD (i + 1 + 1) (0, 0)).1 * ((a :: b :: t).getD (i + 1) (0, 0)).2) =
          ∑ i in Finset.range ((b :: t).length - 1),
          (((b :: t).getD i (0, 0)).1 * ((b :: t).getD (i + 1) (0, 0)).2 -
            ((b :: t).getD (i + 1) (0, 0)).1 * ((b :: t).getD i (0, 0)).2) :=
        Finset.sum_congr rfl (fun i _ => rfl)
      rw [h2]
      exact add_comm _ _

/-- The spec's shoelace/trapezoid formula (§4.3): for a closed ring
`v_0 … v_{n-1}` with `v_0 = v_{n-1}` and `m := n - 1` distinct vertices,
one half of the sum of `x_i * (y_{i+1} - y_{i-1})` over the `m` vertex
indices, with wrap-around neighbors for the first and the last vertex.
This definition follows the spec's words; the theorem below compares it
with `signed_area`, which is embedded from the source. -/
def specSignedArea (ring : List Coord) : ℚ :=
  let l := ring.map proj2
  let m := l.length - 1
  (∑ i in Finset.range m,
    (l.getD i (0, 0)).1 *
      ((l.getD ((i + 1) % m) (0, 0)).2 - (l.getD ((i + m - 1) % m) (0, 0)).2)) / 2

/-- The cyclic shoelace sum over the distinct vertices of a closed ring
equals the adjacent-pair cross sum over the full (closed) vertex list. -/
theorem cyclicSum_eq_crossSum (l : List P2) (h : Closed2 l) :
    ∑ i in Finset.range (l.length - 1),
      (l.getD i (0, 0)).1 *
        ((l.getD ((i + 1) % (l.length - 1)) (0, 0)).2 -
          (l.getD ((i + (l.length - 1) - 1) % (l.length - 1)) (0, 0)).2) =
    crossSum l := by
  obtain ⟨hlen, hend⟩ := h
  set m := l.length - 1 with hm_def
  have hm : 0 < m := by omega
  have hclose : l.getD 0 (0, 0) = l.getD m (0, 0) := hend
  rw [crossSum_eq_sum, ← hm_def]
  have hsplit : ∀ i ∈ Finset.range m,
      (l.getD i (0, 0)).1 *
        ((l.getD ((i + 1) % m) (0, 0)).2 - (l.getD ((i + m - 1) % m) (0, 0)).2) =
      (l.getD i (0, 0)).1 * (l.getD ((i + 1) % m) (0, 0)).2 -
        (l.getD i (0, 0)).1 * (l.getD ((i + m - 1) % m) (0, 0)).2 := by
    intro i _; ring
  rw [Finset.sum_congr rfl hsplit, Finset.sum_sub_distrib]
  have hG1 : ∑ i in Finset.range m, (l.getD i (0, 0)).1 * (l.getD ((i + 1) % m) (0, 0)).2 =
      ∑ i in Finset.range m, (l.getD i (0, 0)).1 * (l.getD (i + 1) (0, 0)).2 := by
    apply Finset.sum_congr rfl
    intro i hi
    have hi' : i < m := Finset.mem_range.mp hi
    rcases Nat.lt_or_ge (i + 1) m with hlt | hge
    · rw [Nat.mod_eq_of_lt hlt]
    · have heq : i + 1 = m := by omega
      rw [heq, Nat.mod_self, ← hclose]
  have hG2 : ∑ i in Finset.range m, (l.getD i (0, 0)).1 * (l.getD ((i + m - 1) % m) (0, 0)).2 =
      ∑ i in Finset.range m, (l.getD (i + 1) (0, 0)).1 * (l.getD i (0, 0)).2 := by
    have hpred : ∀ i, i < m →
        (l.getD i (0, 0)).1 * (l.getD ((i + m - 1) % m) (0, 0)).2 =
        (l.getD (((i + m - 1) % m + 1) % m) (0, 0)).1 * (l.getD ((i + m - 1) % m) (0, 0)).2 := by
      intro i hi
      have h1 : ((i + m - 1) % m + 1) % m = i := by
        rw [Nat.mod_add_mod]
        have : i + m - 1 + 1 = i + m := by omega
        rw [this, Nat.add_mod_right, Nat.mod_eq_of_lt hi]
      rw [h1]
    calc ∑ i in Finset.range m, (l.getD i (0, 0)).1 * (l.getD ((i + m - 1) % m) (0, 0)).2
        = ∑ i in Finset.range m,
            (l.getD (((i + m - 1) % m + 1) % m) (0, 0)).1 * (l.getD ((i + m - 1) % m) (0, 0)).2 :=
          Finset.sum_congr rfl (fun i hi => hpred i (Finset.mem_range.mp hi))
      _ = ∑ i : Fin m,
            (l.getD (((i.1 + m - 1) % m + 1) % m) (0, 0)).1 * (l.getD ((i.1 + m - 1) % m) (0, 0)).2 :=
          (Fin.sum_univ_eq_sum_range _ m).symm
      _ = ∑ j : Fin m, (l.getD ((j.1 + 1) % m) (0, 0)).1 * (l.getD j.1 (0, 0)).2 := by
          refine Fintype.sum_equiv
            ⟨fun i => ⟨(i.1 + m - 1) % m, Nat.mod_lt _ hm⟩,
              fun j => ⟨(j.1 + 1) % m, Nat.mod_lt _ hm⟩, ?_, ?_⟩ _ _ ?_
          · intro i
            apply Fin.ext
            show ((i.1 + m - 1) % m + 1) % m = i.1
            rw [Nat.mod_add_mod]
            have h1 : i.1 + m - 1 + 1 = i.1 + m := by omega
            rw [h1, Nat.add_mod_right, Nat.mod_eq_of_lt i.2]
          · intro j
            apply Fin.ext
            show ((j.1 + 1) % m + m - 1) % m = j.1
            have h2 : (j.1 + 1) % m + m - 1 = (j.1 + 1) % m + (m - 1) := by omega
            rw [h2, Nat.mod_add_mod]
            have h3 : j.1 + 1 + (m - 1) = j.1 + m := by omega
            rw [h3, Nat.add_mod_right, Nat.mod_eq_of_lt j.2]
          · intro i
            rfl
      _ = ∑ j in Finset.range m, (l.getD ((j + 1) % m) (0, 0)).1 * (l.getD j (0, 0)).2 :=
          Fin.sum_univ_eq_sum_range
            (fun j => (l.getD ((j + 1) % m) (0, 0)).1 * (l.getD j (0, 0)).2) m
      _ = ∑ j in Finset.range m, (l.getD (j + 1) (0, 0)).1 * (l.getD j (0, 0)).2 := by
          apply Finset.sum_congr rfl
          intro j hj
          have hj' : j < m := Finset.mem_range.mp hj
          rcases Nat.lt_or_ge (j + 1) m with hlt | hge
          · rw [Nat.mod_eq_of_lt hlt]
          · have heq : j + 1 = m := by omega
            rw [heq, Nat.mod_self, ← hclose]
  rw [hG1, hG2, ← Finset.sum_sub_distrib]

/-- C3: for every closed ring (`v_0 = v_{n-1}`), `signed_area` equals one
half of the shoelace sum of `x_i * (y_{i+1} - y_{i-1})` over the ring's
distinct vertex indices with wrap-around neighbors (the spec's formula,
`specSignedArea`), and the result depends only on the first two coordinate
axes: any ring with the same x/y projection has the same signed area. -/
theorem signed_area_eq_spec_formula (ring : List Coord) (h : ClosedRing ring) :
    signed_area ring = specSignedArea ring ∧
      ∀ ring' : List Coord, ring'.map proj2 = ring.map proj2 →
        signed_area ring' = signed_area ring := by
  constructor
  · rw [signed_area, signedArea2_eq_crossSum _ h.proj]
    simp only [specSignedArea]
    rw [← cyclicSum_eq_crossSum _ h.proj]
  · intro ring' h'
    unfold signed_area
    rw [h']

/-- Witness for C3 at a closed ring that carries a third dimension. -/
theorem signed_area_eq_spec_formula_witness :
    ClosedRing [((0 : ℚ), (0 : ℚ), (some 5 : Option ℚ)), (2, 0, none), (2, 1, some 3),
        (1, 1, none), (1, 0, some 7), (0, 0, some 5)] ∧
      signed_area [((0 : ℚ), (0 : ℚ), (some 5 : Option ℚ)), (2, 0, none), (2, 1, some 3),
          (1, 1, none), (1, 0, some 7), (0, 0, some 5)] =
        specSignedArea [((0 : ℚ), (0 : ℚ), (some 5 : Option ℚ)), (2, 0, none), (2, 1, some 3),
          (1, 1, none), (1, 0, some 7), (0, 0, some 5)] :=
  ⟨by decide, (signed_area_eq_spec_formula _ (by decide)).1⟩

/-! ## The geometry data model

The spec's closed tagged variant (§3): each single-part variant carries its
coordinate sequence, a Polygon carries an exterior ring plus interior rings,
and the Multi*/GeometryCollection variants carry child geometries.  An empty
geometry is one with no coordinates. -/

inductive Geometry where
  | point (cs : List Coord)
  | lineString (cs : List Coord)
  | linearRing (cs : List Coord)
  | polygon (shell : List Coord) (holes : List (List Coord))
  | multiPoint (parts : List Geometry)
  | multiLineString (parts : List Geometry)
  | multiPolygon (parts : List Geometry)
  | geometryCollection (parts : List Geometry)

/-- The `geom_type` string of a geometry, as in shapely. -/
def geom_type : Geometry → String
  | .point _ => "Point"
  | .lineString _ => "LineString"
  | .linearRing _ => "LinearRing"
  | .polygon _ _ => "Polygon"
  | .multiPoint _ => "MultiPoint"
  | .multiLineString _ => "MultiLineString"
  | .multiPolygon _ => "MultiPolygon"
  | .geometryCollection _ => "GeometryCollection"

/-- `geometry.coords` of a single-part geometry (Polygon has no `coords`;
the functions below never ask for it). -/
def coordsOf : Geometry → List Coord
  | .point cs => cs
  | .lineString cs => cs
  | .linearRing cs => cs
  | _ => []

/-- Embedding of `shapely.algorithms.cga._is_ccw_fallback` (scalar input;
the source maps itself over iterables, which corresponds to `List.map` of
this function).  `none` is Python's `None`.  The source dispatches on
`geometry.geom_type in ["LinearRing", "LineString"]`; here that test is the
match on the two constructors. -/
def is_ccw_fallback : Option Geometry → Bool
  | none => false
  | some (.linearRing cs) => if cs.length < 4 then false else decide (0 ≤ signed_area cs)
  | some (.lineString cs) => if cs.length < 4 then false else decide (0 ≤ signed_area cs)
  | some _ => false

/-- C4: the reference `is_ccw` returns false for any ring with fewer than
4 coordinate points regardless of its signed area, returns
`signed_area ≥ 0` otherwise, yields false on a null input, and yields
false (without error — it is a total function) on any geometry that is
neither a LinearRing nor a LineString. -/
theorem is_ccw_fallback_spec :
    (∀ cs : List Coord, cs.length < 4 →
        is_ccw_fallback (some (.linearRing cs)) = false ∧
          is_ccw_fallback (some (.lineString cs)) = false) ∧
      (∀ cs : List Coord, 4 ≤ cs.length →
        is_ccw_fallback (some (.linearRing cs)) = decide (0 ≤ signed_area cs) ∧
          is_ccw_fallback (some (.lineString cs)) = decide (0 ≤ signed_area cs)) ∧
      is_ccw_fallback none = false ∧
      (∀ g : Geometry, geom_type g ≠ "LinearRing" → geom_type g ≠ "LineString" →
        is_ccw_fallback (some g) = false) := by
  refine ⟨?_, ?_, rfl, ?_⟩
  · intro cs h
    constructor <;> simp [is_ccw_fallback, h]
  · intro cs h
    have h' : ¬ cs.length < 4 := by omega
    constructor <;> simp [is_ccw_fallback, h']
  · intro g h1 h2
    cases g <;> simp [geom_type] at h1 h2 ⊢ <;> simp [is_ccw_fallback]

/-- Witness for C4: a 3-point counter-clockwise triangle ring is not CCW,
a 5-point CCW square is, and a Polygon input yields false. -/
theorem is_ccw_fallback_spec_witness :
    is_ccw_fallback (some (.linearRing
        [((0 : ℚ), (0 : ℚ), (none : Option ℚ)), (1, 0, none), (0, 0, none)])) = false ∧
      is_ccw_fallback (some (.linearRing
        [((0 : ℚ), (0 : ℚ), (none : Option ℚ)), (1, 0, none), (1, 1, none),
          (0, 1, none), (0, 0, none)])) =
        decide (0 ≤ signed_area
          [((0 : ℚ), (0 : ℚ), (none : Option ℚ)), (1, 0, none), (1, 1, none),
            (0, 1, none), (0, 0, none)]) ∧
      is_ccw_fallback (some (.polygon [] [])) = false :=
  ⟨(is_ccw_fallback_spec.1 _ (by decide)).1,
    (is_ccw_fallback_spec.2.1 _ (by decide)).1,
    is_ccw_fallback_spec.2.2.2 (.polygon [] []) (by decide) (by decide)⟩

/-- Embedding of `shapely.algorithms.cga.force_ccw`.  For a Polygon:
`rings = [exterior, *interiors]`, `reverse_rings = is_ccw(rings)` (the
rings are LinearRing objects), `reverse_rings[0] = not reverse_rings[0]`,
`if ccw: reverse_rings = np.logical_not(reverse_rings)`, then each ring is
kept when its flag is true and replaced by `list(ring.coords)[::-1]`
otherwise, and the Polygon is rebuilt from `rings[0], rings[1:]`.
MultiPolygon/GeometryCollection recurse over children; any other geometry
is returned unchanged. -/
def force_ccw (g : Geometry) (ccw : Bool) : Geometry :=
  match g with
  | .multiPolygon parts => .multiPolygon (parts.attach.map (fun p => force_ccw p.1 ccw))
  | .geometryCollection parts =>
      .geometryCollection (parts.attach.map (fun p => force_ccw p.1 ccw))
  | .polygon shell holes =>
      let rings := shell :: holes
      let reverseRings := rings.map (fun r => is_ccw_fallback (some (.linearRing r)))
      let reverseRings := match reverseRings with
        | f :: rest => (!f) :: rest
        | [] => []
      let reverseRings := if ccw then reverseRings.map (fun b => !b) else reverseRings
      let newRings := (rings.zip reverseRings).map
        (fun p => if p.2 then p.1 else p.1.reverse)
      .polygon (newRings.headD []) newRings.tail
  | g => g
termination_by sizeOf g
decreasing_by
  all_goals
    have h := List.sizeOf_lt_of_mem p.2
    simp_wf
    omega

/-- Exterior ring of a polygon result. -/
def exteriorOf : Geometry → List Coord
  | .polygon s _ => s
  | _ => []

/-- Interior rings of a polygon result. -/
def interiorsOf : Geometry → List (List Coord)
  | .polygon _ h => h
  | _ => []

/-- All rings of a polygon, exterior first — the `[exterior, *interiors]`
list `force_ccw` works on. -/
def ringsOf : Geometry → List (List Coord)
  | .polygon s h => s :: h
  | _ => []

theorem if_not_eq {α : Sort _} (b : Bool) (x y : α) :
    (if !b then x else y) = if b then y else x := by
  cases b <;> rfl

theorem zip_map_self {α β γ : Type _} (l : List α) (g : α → β) (F : α × β → γ) :
    ((l.zip (l.map g)).map F) = l.map (fun a => F (a, g a)) := by
  induction l with
  | nil => rfl
  | cons a t ih => simp only [List.map_cons, List.zip_cons_cons, ih]

/-- Closed form of `force_ccw` on a polygon with `ccw = true`: the
exterior is kept iff it is CCW, an interior ring is reversed iff it is
CCW. -/
theorem force_ccw_polygon_true (shell : List Coord) (holes : List (List Coord)) :
    force_ccw (.polygon shell holes) true =
      .polygon
        (if is_ccw_fallback (some (.linearRing shell)) then shell else shell.reverse)
        (holes.map (fun h =>
          if is_ccw_fallback (some (.linearRing h)) then h.reverse else h)) := by
  simp only [force_ccw, List.map_cons, if_true, List.map_map, Bool.not_not,
    List.zip_cons_cons, List.headD_cons, List.tail_cons]
  rw [zip_map_self]
  congr 1
  apply List.map_congr_left
  intro h _
  simp only [Function.comp_apply]
  exact if_not_eq _ _ _

/-- Closed form of `force_ccw` on a polygon with `ccw = false`: the
exterior is reversed iff it is CCW, an interior ring is kept iff it is
CCW. -/
theorem force_ccw_polygon_false (shell : List Coord) (holes : List (List Coord)) :
    force_ccw (.polygon shell holes) false =
      .polygon
        (if is_ccw_fallback (some (.linearRing shell)) then shell.reverse else shell)
        (holes.map (fun h =>
          if is_ccw_fallback (some (.linearRing h)) then h else h.reverse)) := by
  simp only [force_ccw, List.map_cons, if_false, Bool.false_eq_true,
    List.zip_cons_cons, List.headD_cons, List.tail_cons]
  rw [zip_map_self]
  congr 1
  exact if_not_eq _ _ _

/-- A closed ring, kept when the `is_ccw` check holds and reversed
otherwise, ends with non-negative signed area. -/
theorem kept_or_reversed_nonneg (r : List Coord) (h : ClosedRing r) :
    0 ≤ signed_area (if is_ccw_fallback (some (.linearRing r)) then r else r.reverse) := by
  by_cases hc : is_ccw_fallback (some (.linearRing r)) = true
  · rw [if_pos hc]
    unfold is_ccw_fallback at hc
    rcases Nat.lt_or_ge r.length 4 with hlt | hge
    · simp [hlt] at hc
    · have h4 : ¬ r.length < 4 := by omega
      simp only [h4, if_false, decide_eq_true_eq] at hc
      exact hc
  · rw [if_neg hc, signed_area_reverse r h]
    unfold is_ccw_fallback at hc
    rcases Nat.lt_or_ge r.length 4 with hlt | hge
    · rw [signed_area_degenerate r h hlt]
      norm_num
    · have h4 : ¬ r.length < 4 := by omega
      simp only [h4, if_false, decide_eq_true_eq] at hc
      push_neg at hc
      linarith

/-- A closed ring, reversed when the `is_ccw` check holds and kept
otherwise, ends with non-positive signed area. -/
theorem reversed_or_kept_nonpos (r : List Coord) (h : ClosedRing r) :
    signed_area (if is_ccw_fallback (some (.linearRing r)) then r.reverse else r) ≤ 0 := by
  by_cases hc : is_ccw_fallback (some (.linearRing r)) = true
  · rw [if_pos hc, signed_area_reverse r h]
    unfold is_ccw_fallback at hc
    rcases Nat.lt_or_ge r.length 4 with hlt | hge
    · simp [hlt] at hc
    · have h4 : ¬ r.length < 4 := by omega
      simp only [h4, if_false, decide_eq_true_eq] at hc
      linarith
  · rw [if_neg hc]
    unfold is_ccw_fallback at hc
    rcases Nat.lt_or_ge r.length 4 with hlt | hge
    · rw [signed_area_degenerate r h hlt]
    · have h4 : ¬ r.length < 4 := by omega
      simp only [h4, if_false, decide_eq_true_eq] at hc
      push_neg at hc
      linarith

/-- C1: for every polygon whose rings are closed, `force_ccw` with
`ccw = true` yields an exterior ring with `signed_area ≥ 0` and interior
rings with `signed_area ≤ 0`; with `ccw = false` the exterior has
`signed_area ≤ 0` and every interior ring has `signed_area ≥ 0`. -/
theorem force_ccw_polarity (shell : List Coord) (holes : List (List Coord))
    (hs : ClosedRing shell) (hh : ∀ r ∈ holes, ClosedRing r) :
    (0 ≤ signed_area (exteriorOf (force_ccw (.polygon shell holes) true)) ∧
      ∀ r ∈ interiorsOf (force_ccw (.polygon shell holes) true), signed_area r ≤ 0) ∧
    (signed_area (exteriorOf (force_ccw (.polygon shell holes) false)) ≤ 0 ∧
      ∀ r ∈ interiorsOf (force_ccw (.polygon shell holes) false), 0 ≤ signed_area r) := by
  rw [force_ccw_polygon_true, force_ccw_polygon_false]
  refine ⟨⟨?_, ?_⟩, ?_, ?_⟩
  · exact kept_or_reversed_nonneg shell hs
  · intro r hr
    simp only [interiorsOf, List.mem_map] at hr
    obtain ⟨h0, hmem, rfl⟩ := hr
    exact reversed_or_kept_nonpos h0 (hh h0 hmem)
  · exact reversed_or_kept_nonpos shell hs
  · intro r hr
    simp only [interiorsOf, List.mem_map] at hr
    obtain ⟨h0, hmem, rfl⟩ := hr
    exact kept_or_reversed_nonneg h0 (hh h0 hmem)

/-- Witness for C1: a clockwise square exterior with one counter-clockwise
square hole. -/
theorem force_ccw_polarity_witness :
    ClosedRing [((0 : ℚ), (0 : ℚ), (none : Option ℚ)), (0, 3, none), (3, 3, none),
        (3, 0, none), (0, 0, none)] ∧
      (∀ r ∈ [[((1 : ℚ), (1 : ℚ), (none : Option ℚ)), (2, 1, none), (2, 2, none),
          (1, 2, none), (1, 1, none)]], ClosedRing r) ∧
      0 ≤ signed_area (exteriorOf (force_ccw
        (.polygon
          [((0 : ℚ), (0 : ℚ), (none : Option ℚ)), (0, 3, none), (3, 3, none),
            (3, 0, none), (0, 0, none)]
          [[((1 : ℚ), (1 : ℚ), (none : Option ℚ)), (2, 1, none), (2, 2, none),
            (1, 2, none), (1, 1, none)]]) true)) :=
  ⟨by decide, by decide,
    (force_ccw_polarity _ _ (by decide) (by decide)).1.1⟩

/-- The per-ring flag pipeline described by claim C2, which is also
exactly the flag computation inside `force_ccw`: compute `is_ccw` of each
ring in the order `[exterior, interior_1, …]`, logically invert the
exterior's flag, then — when `ccw = true` — invert every flag once more. -/
def c2Flags (shell : List Coord) (holes : List (List Coord)) (ccw : Bool) : List Bool :=
  let flags := (shell :: holes).map (fun r => is_ccw_fallback (some (.linearRing r)))
  let flags := match flags with
    | f :: rest => (!f) :: rest
    | [] => []
  if ccw then flags.map (fun b => !b) else flags

/-- The polygon procedure exactly as claim C2 words it: the same flag
pipeline, but reversing precisely the rings whose resulting flag is true
and keeping the false-flag rings untouched.  Stated from the claim, for
comparison with the source's `force_ccw`. -/
def force_ccw_claimC2 (g : Geometry) (ccw : Bool) : Geometry :=
  match g with
  | .polygon shell holes =>
      let newRings := ((shell :: holes).zip (c2Flags shell holes ccw)).map
        (fun p => if p.2 then p.1.reverse else p.1)
      .polygon (newRings.headD []) newRings.tail
  | g => g

theorem c2Flags_length (shell : List Coord) (holes : List (List Coord)) (ccw : Bool) :
    (c2Flags shell holes ccw).length = holes.length + 1 := by
  cases ccw <;> simp [c2Flags]

/-- The ring list produced by `force_ccw` on a polygon: each ring zipped
with its flag, kept when the flag is true, reversed when it is false. -/
theorem force_ccw_rings_eq (shell : List Coord) (holes : List (List Coord)) (ccw : Bool) :
    ringsOf (force_ccw (.polygon shell holes) ccw) =
      ((shell :: holes).zip (c2Flags shell holes ccw)).map
        (fun p => if p.2 then p.1 else p.1.reverse) := by
  cases ccw
  · rw [force_ccw_polygon_false]
    simp only [c2Flags, List.map_cons, if_false, Bool.false_eq_true,
      List.zip_cons_cons, ringsOf]
    rw [zip_map_self]
    congr 1
    exact (if_not_eq _ _ _).symm
  · rw [force_ccw_polygon_true]
    simp only [c2Flags, List.map_cons, if_true, List.map_map, Bool.not_not,
      List.zip_cons_cons, ringsOf]
    rw [zip_map_self]
    congr 1
    apply List.map_congr_left
    intro h _
    simp only [Function.comp_apply]
    exact (if_not_eq _ _ _).symm

theorem getD_zip_map {α β γ : Type _} (l₁ : List α) (l₂ : List β) (F : α × β → γ)
    (d₁ : α) (d₂ : β) (dγ : γ) (i : ℕ) (hi : i < l₁.length) (hlen : l₁.length = l₂.length) :
    ((l₁.zip l₂).map F).getD i dγ = F (l₁.getD i d₁, l₂.getD i d₂) := by
  induction l₁ generalizing l₂ i with
  | nil => simp at hi
  | cons a t ih =>
    cases l₂ with
    | nil => simp at hlen
    | cons b s =>
      cases i with
      | zero => rfl
      | succ j =>
        simp only [List.zip_cons_cons, List.map_cons, List.getD_cons_succ]
        exact ih s j (by simpa using hi) (by simpa using hlen)

/-- C2 (amended): `force_ccw` computes the flags exactly as the claim
describes, but applies them the other way round — ring `i` of the result
is ring `i` of the input when flag `i` is TRUE, and the reversal of ring
`i` when flag `i` is FALSE; the ring count is unchanged. -/
theorem force_ccw_rings_by_flag (shell : List Coord) (holes : List (List Coord))
    (ccw : Bool) (i : ℕ) (hi : i < (shell :: holes).length) :
    (ringsOf (force_ccw (.polygon shell holes) ccw)).getD i [] =
      (if (c2Flags shell holes ccw).getD i false then (shell :: holes).getD i []
        else ((shell :: holes).getD i []).reverse) ∧
      (ringsOf (force_ccw (.polygon shell holes) ccw)).length =
        (shell :: holes).length := by
  have hlen : (shell :: holes).length = (c2Flags shell holes ccw).length := by
    rw [c2Flags_length]
    simp
  constructor
  · rw [force_ccw_rings_eq, getD_zip_map _ _ _ [] false [] i hi hlen]
  · rw [force_ccw_rings_eq]
    simp [List.length_zip, ← hlen]

/-- Witness for C2's amended statement at `i = 1`: the first interior ring
of a polygon (CCW square shell, CCW square hole, `ccw = true`). -/
theorem force_ccw_rings_by_flag_witness :
    (ringsOf (force_ccw (.polygon
        [((0 : ℚ), (0 : ℚ), (none : Option ℚ)), (3, 0, none), (3, 3, none),
          (0, 3, none), (0, 0, none)]
        [[((1 : ℚ), (1 : ℚ), (none : Option ℚ)), (2, 1, none), (2, 2, none),
          (1, 2, none), (1, 1, none)]]) true)).getD 1 [] =
      (if (c2Flags
            [((0 : ℚ), (0 : ℚ), (none : Option ℚ)), (3, 0, none), (3, 3, none),
              (0, 3, none), (0, 0, none)]
            [[((1 : ℚ), (1 : ℚ), (none : Option ℚ)), (2, 1, none), (2, 2, none),
              (1, 2, none), (1, 1, none)]] true).getD 1 false then
        ([((0 : ℚ), (0 : ℚ), (none : Option ℚ)), (3, 0, none), (3, 3, none),
            (0, 3, none), (0, 0, none)] ::
          [[((1 : ℚ), (1 : ℚ), (none : Option ℚ)), (2, 1, none), (2, 2, none),
            (1, 2, none), (1, 1, none)]]).getD 1 []
      else
        (([((0 : ℚ), (0 : ℚ), (none : Option ℚ)), (3, 0, none), (3, 3, none),
            (0, 3, none), (0, 0, none)] ::
          [[((1 : ℚ), (1 : ℚ), (none : Option ℚ)), (2, 1, none), (2, 2, none),
            (1, 2, none), (1, 1, none)]]).getD 1 []).reverse) :=
  (force_ccw_rings_by_flag _ _ true 1 (by decide)).1

/-- Counterexample to C2 as stated: on a counter-clockwise unit square
with `ccw = true`, the source's `force_ccw` keeps the ring (its resulting
flag is true), whereas the claim's procedure (`force_ccw_claimC2`) would
reverse it; the two outputs differ. -/
theorem force_ccw_claimC2_counterexample :
    force_ccw (.polygon
        [((0 : ℚ), (0 : ℚ), (none : Option ℚ)), (1, 0, none), (1, 1, none),
          (0, 1, none), (0, 0, none)] []) true =
      .polygon
        [((0 : ℚ), (0 : ℚ), (none : Option ℚ)), (1, 0, none), (1, 1, none),
          (0, 1, none), (0, 0, none)] [] ∧
    force_ccw_claimC2 (.polygon
        [((0 : ℚ), (0 : ℚ), (none : Option ℚ)), (1, 0, none), (1, 1, none),
          (0, 1, none), (0, 0, none)] []) true =
      .polygon
        [((0 : ℚ), (0 : ℚ), (none : Option ℚ)), (1, 0, none), (1, 1, none),
          (0, 1, none), (0, 0, none)].reverse [] ∧
    ([((0 : ℚ), (0 : ℚ), (none : Option ℚ)), (1, 0, none), (1, 1, none),
        (0, 1, none), (0, 0, none)] : List Coord) ≠
      [((0 : ℚ), (0 : ℚ), (none : Option ℚ)), (1, 0, none), (1, 1, none),
        (0, 1, none), (0, 0, none)].reverse := by
  have hccw : is_ccw_fallback (some (.linearRing
      [((0 : ℚ), (0 : ℚ), (none : Option ℚ)), (1, 0, none), (1, 1, none),
        (0, 1, none), (0, 0, none)])) = true := by
    simp only [is_ccw_fallback, List.length_cons, List.length_nil]
    norm_num
    simp only [signed_area, signedArea2, triSum, proj2, List.map_cons, List.map_nil]
    norm_num [List.getD]
  refine ⟨?_, ?_, by decide⟩
  · rw [force_ccw_polygon_true]
    simp only [List.map_nil]
    rw [if_pos hccw]
  · simp only [force_ccw_claimC2, c2Flags, List.map_cons, List.map_nil, hccw,
      if_true, Bool.not_true, Bool.not_false, List.zip_cons_cons, List.zip_nil_right,
      List.headD_cons, List.tail_cons]

/-! ## The coordinate access engine

`lib.count_coordinates`, `lib.get_coordinates` and `lib.set_coordinates`
are C functions of this repository that are not under `src/`; they are
modelled from the spec (§4.1).  The Python wrappers around them
(`coordinates.py`) are embedded from the source. -/

/-- A numpy `float64` cell; `none` models the NaN signal value. -/
abbrev Val := Option ℚ

/-- One row of a coordinate buffer (length 2 or 3 in well-formed use). -/
abbrev Row := List Val

/-- A flat coordinate buffer: ordered rows. -/
abbrev Buffer := List Row

/-- A batch of geometries; `none` is a null entry. -/
abbrev Batch := List (Option Geometry)

/-- The buffer row emitted for one stored coordinate: x and y always,
and — when `includeZ` — the z cell (NaN when the geometry has none). -/
def coordToRow (includeZ : Bool) (c : Coord) : Row :=
  if includeZ then [some c.1, some c.2.1, c.2.2] else [some c.1, some c.2.1]

/-- A buffer row read back into a stored coordinate: a 2-column row drops
any third dimension, a 3-column row carries it.  (A NaN in the x or y cell
is outside the model and defaults; the claims never exercise it.) -/
def rowToCoord (r : Row) : Coord :=
  ((r.getD 0 (some 0)).getD 0, (r.getD 1 (some 0)).getD 0, r.getD 2 none)

mutual
/-- Modelled from the spec: `lib.get_coordinates` on one geometry —
depth-first, left-to-right extraction (§4.1): single-part geometries emit
their own coordinates in order, a Polygon emits the exterior ring then
each interior ring, collections emit each child's extraction in order. -/
def extractG (includeZ : Bool) : Geometry → Buffer
  | .point cs => cs.map (coordToRow includeZ)
  | .lineString cs => cs.map (coordToRow includeZ)
  | .linearRing cs => cs.map (coordToRow includeZ)
  | .polygon shell holes =>
      shell.map (coordToRow includeZ) ++
        (holes.map (fun h => h.map (coordToRow includeZ))).flatten
  | .multiPoint parts => extractList includeZ parts
  | .multiLineString parts => extractList includeZ parts
  | .multiPolygon parts => extractList includeZ parts
  | .geometryCollection parts => extractList includeZ parts

/-- Child-wise extraction for collection geometries. -/
def extractList (includeZ : Bool) : List Geometry → Buffer
  | [] => []
  | g :: rest => extractG includeZ g ++ extractList includeZ rest
end

mutual
/-- Modelled from the spec: `lib.count_coordinates` on one geometry — the
total number of coordinate tuples reachable by recursive descent (§4.1). -/
def countG : Geometry → ℕ
  | .point cs => cs.length
  | .lineString cs => cs.length
  | .linearRing cs => cs.length
  | .polygon shell holes => shell.length + (holes.map List.length).sum
  | .multiPoint parts => countList parts
  | .multiLineString parts => countList parts
  | .multiPolygon parts => countList parts
  | .geometryCollection parts => countList parts

/-- Child-wise coordinate count. -/
def countList : List Geometry → ℕ
  | [] => 0
  | g :: rest => countG g + countList rest
end

/-- Embedding of `count_coordinates` over a batch: null entries count 0
and per-element counts are summed. -/
def count_coordinates (b : Batch) : ℕ :=
  (b.map (fun g? => match g? with | none => 0 | some g => countG g)).sum

/-- Embedding of `get_coordinates` over a batch: null entries are skipped,
per-element extractions are concatenated in batch order. -/
def get_coordinates (b : Batch) (includeZ : Bool) : Buffer :=
  (b.map (fun g? => match g? with | none => [] | some g => extractG includeZ g)).flatten

mutual
/-- Modelled from the spec: `lib.set_coordinates` on one geometry — the
scatter traversal mirrors the extraction order exactly, consuming one row
per coordinate and returning the rebuilt geometry plus the unconsumed
rows (§4.1). -/
def scatterG : Geometry → Buffer → Geometry × Buffer
  | .point cs, rows =>
      (.point ((rows.take cs.length).map rowToCoord), rows.drop cs.length)
  | .lineString cs, rows =>
      (.lineString ((rows.take cs.length).map rowToCoord), rows.drop cs.length)
  | .linearRing cs, rows =>
      (.linearRing ((rows.take cs.length).map rowToCoord), rows.drop cs.length)
  | .polygon shell holes, rows =>
      let shellNew := (rows.take shell.length).map rowToCoord
      let ⟨holesNew, rest⟩ := scatterRings holes (rows.drop shell.length)
      (.polygon shellNew holesNew, rest)
  | .multiPoint parts, rows =>
      let ⟨ps, rest⟩ := scatterList parts rows
      (.multiPoint ps, rest)
  | .multiLineString parts, rows =>
      let ⟨ps, rest⟩ := scatterList parts rows
      (.multiLineString ps, rest)
  | .multiPolygon parts, rows =>
      let ⟨ps, rest⟩ := scatterList parts rows
      (.multiPolygon ps, rest)
  | .geometryCollection parts, rows =>
      let ⟨ps, rest⟩ := scatterList parts rows
      (.geometryCollection ps, rest)

/-- Ring-wise scatter for a polygon's interiors. -/
def scatterRings : List (List Coord) → Buffer → List (List Coord) × Buffer
  | [], rows => ([], rows)
  | h :: t, rows =>
      let hNew := (rows.take h.length).map rowToCoord
      let ⟨tNew, rest⟩ := scatterRings t (rows.drop h.length)
      (hNew :: tNew, rest)

/-- Child-wise scatter for collection geometries. -/
def scatterList : List Geometry → Buffer → List Geometry × Buffer
  | [], rows => ([], rows)
  | g :: t, rows =>
      let ⟨gNew, r1⟩ := scatterG g rows
      let ⟨tNew, r2⟩ := scatterList t r1
      (gNew :: tNew, r2)
end

/-- Modelled from the spec: `lib.set_coordinates` over a batch — null
entries are skipped, each geometry consumes its rows in batch order. -/
def lib_set_coordinates : Batch → Buffer → Batch
  | [], _ => []
  | none :: t, rows => none :: lib_set_coordinates t rows
  | some g :: t, rows =>
      let ⟨gNew, rest⟩ := scatterG g rows
      some gNew :: lib_set_coordinates t rest

/-! ## The transform pipeline (`coordinates.py`) -/

/-- Errors of the transform pipeline and the scatter entry point.
`userFailure` is an exception raised inside the user-supplied mapping
function; `badResultType` covers `_transform`'s not-an-ndarray / wrong
dtype checks (in the model a ragged row list stands for an object-dtype
array); `badShape` is `_transform`'s shape check; `invalidShape` is
`set_coordinates`'s buffer validation; `indexError` is the
`include_z[0]` access on an empty batch in `transform`. -/
inductive TErr where
  | userFailure
  | badResultType
  | badShape
  | invalidShape
  | indexError
deriving DecidableEq

/-- The column count of a buffer, numpy's `shape[1]` (the width of the
first row; meaningful for rectangular buffers). -/
def bufCols (b : Buffer) : ℕ := (b.headD []).length

/-- Rectangularity: every row as wide as the first.  A non-rectangular
list corresponds to an object-dtype numpy array. -/
def bufRect (b : Buffer) : Bool := b.all (fun r => r.length == bufCols b)

/-- Embedding of `coordinates._transform` (structure-preserving path):
extract the coordinates, call the mapping function once on the whole
buffer, validate the result (array-ness/dtype, then shape), and scatter it
back.  A failure inside the mapping function propagates as is. -/
def _transform (geometry : Batch) (transformation : Buffer → Except TErr Buffer)
    (include_z : Bool) : Except TErr Batch :=
  let coordinates := get_coordinates geometry include_z
  match transformation coordinates with
  | .error e => .error e
  | .ok new_coordinates =>
      if ¬ bufRect new_coordinates then .error .badResultType
      else if new_coordinates.length ≠ coordinates.length ∨
          bufCols new_coordinates ≠ bufCols coordinates then .error .badShape
      else .ok (lib_set_coordinates geometry new_coordinates)

/-- A user-supplied mapping function for the `single_vec=False` mode: a
Python callable may behave differently when handed whole per-axis vectors
and when handed one tuple's scalars, so the model carries both
behaviours. -/
structure MultiVecFn where
  vecCall : List (List Val) → Except TErr (List (List Val))
  scalarCall : Row → Except TErr Row

/-- Transpose of a rectangular buffer (`ndarray.T`), by column count. -/
def transposeAuxB : ℕ → Buffer → Buffer
  | 0, _ => []
  | n + 1, rows => rows.map (fun r => r.headD none) :: transposeAuxB n (rows.map List.tail)

/-- Transpose of a rectangular buffer: `shape (N, w)` to `shape (w, N)`. -/
def transposeB (b : Buffer) : Buffer := transposeAuxB (b.headD []).length b

/-- The whole-array wrapper
`lambda coords: np.array(transformation(*coords.T)).T`. -/
def vecWrap (f : MultiVecFn) : Buffer → Except TErr Buffer := fun coords =>
  match f.vecCall (transposeB coords) with
  | .error e => .error e
  | .ok cols => .ok (transposeB cols)

/-- The per-coordinate wrapper
`lambda coords: np.array([transformation(*c) for c in coords])`. -/
def scalarWrap (f : MultiVecFn) : Buffer → Except TErr Buffer := fun coords =>
  coords.mapM f.scalarCall

/-- Embedding of `coordinates._transform_multi_vec`: try the whole-array
path; on ANY exception from it (the `except Exception` in the source),
run the per-coordinate path instead. -/
def _transform_multi_vec (geometry : Batch) (f : MultiVecFn)
    (include_z : Bool) : Except TErr Batch :=
  match _transform geometry (vecWrap f) include_z with
  | .ok r => .ok r
  | .error _ => _transform geometry (scalarWrap f) include_z

/-! ### `transform`'s include-z dispatch (C6) -/

mutual
/-- Modelled from the spec: the has-Z flag of a geometry (§3) — whether it
carries a third dimension (`shapely.get_coordinate_dimension(g) == 3`).
Coordinate arity is uniform within one geometry, so any-vertex and
every-vertex readings agree on well-formed data. -/
def hasZG : Geometry → Bool
  | .point cs => cs.any (fun c => c.2.2.isSome)
  | .lineString cs => cs.any (fun c => c.2.2.isSome)
  | .linearRing cs => cs.any (fun c => c.2.2.isSome)
  | .polygon shell holes =>
      shell.any (fun c => c.2.2.isSome) ||
        holes.any (fun h => h.any (fun c => c.2.2.isSome))
  | .multiPoint parts => hasZList parts
  | .multiLineString parts => hasZList parts
  | .multiPolygon parts => hasZList parts
  | .geometryCollection parts => hasZList parts

/-- Child-wise has-Z flag. -/
def hasZList : List Geometry → Bool
  | [] => false
  | g :: rest => hasZG g || hasZList rest
end

/-- Modelled from the spec: `shapely.get_coordinate_dimension` — 3 for a
three-dimensional geometry, 2 otherwise, -1 for a null entry. -/
def coordDim : Option Geometry → Int
  | none => -1
  | some g => if hasZG g then 3 else 2

/-- The tri-state `include_z` argument: `True`, `False`, or `-1`. -/
inductive IncludeZ where
  | always
  | never
  | auto
deriving DecidableEq

/-- Embedding of `coordinates.transform` on a batch, for the default
structure-preserving, `single_vec=True` path (`rebuild=False`): a scalar
`include_z` is applied to the whole batch in one `_transform` call; with
`include_z == -1` the source computes the per-element array
`get_coordinate_dimension(geometry) == 3`, collapses it to its first
entry when all entries agree (`np.all(include_z == include_z[0])`), and
otherwise vectorizes `_transform` element-wise with each element's own
flag (`np.frompyfunc`).  On an empty batch `include_z[0]` raises. -/
def transform (geometry : Batch) (transformation : Buffer → Except TErr Buffer)
    (include_z : IncludeZ) : Except TErr Batch :=
  match include_z with
  | .always => _transform geometry transformation true
  | .never => _transform geometry transformation false
  | .auto =>
      match geometry.map (fun g => coordDim g == 3) with
      | [] => .error .indexError
      | f0 :: rest =>
          if rest.all (fun b => b == f0) then _transform geometry transformation f0
          else do
            let results ← (geometry.zip (f0 :: rest)).mapM (fun p => do
              let r ← _transform [p.1] transformation p.2
              pure (r.headD none))
            pure results

/-! ### `set_coordinates` validation (C7) -/

/-- Embedding of `coordinates.set_coordinates`, parametrized by the
engine's scatter primitive so that "no write happens before validation"
is expressible: the source checks
`coordinates.shape[0] != n_coords or coordinates.shape[1] not in (2, 3)`
and raises before `lib.set_coordinates` runs. -/
def set_coordinates_with (writer : Batch → Buffer → Batch) (geometry : Batch)
    (coordinates : Buffer) : Except TErr Batch :=
  if coordinates.length ≠ count_coordinates geometry ∨
      (bufCols coordinates ≠ 2 ∧ bufCols coordinates ≠ 3) then
    .error .invalidShape
  else
    .ok (writer geometry coordinates)

/-- `set_coordinates` proper: the wrapper applied to the engine scatter. -/
def set_coordinates (geometry : Batch) (coordinates : Buffer) : Except TErr Batch :=
  set_coordinates_with lib_set_coordinates geometry coordinates

/-- C7: for every batch and every (rectangular) coordinate buffer,
`set_coordinates` fails exactly when the buffer's row count differs from
the batch's coordinate count or its column count is not 2 or 3; in the
failing case the error is produced whatever the engine's scatter
primitive does (no write happens), and otherwise the scatter runs. -/
theorem set_coordinates_validation (g : Batch) (buf : Buffer)
    (_hrect : bufRect buf = true) :
    ((∃ e, set_coordinates g buf = .error e) ↔
      buf.length ≠ count_coordinates g ∨ (bufCols buf ≠ 2 ∧ bufCols buf ≠ 3)) ∧
    ((buf.length ≠ count_coordinates g ∨ (bufCols buf ≠ 2 ∧ bufCols buf ≠ 3)) →
      ∀ w : Batch → Buffer → Batch,
        set_coordinates_with w g buf = .error .invalidShape) ∧
    (buf.length = count_coordinates g → bufCols buf = 2 ∨ bufCols buf = 3 →
      set_coordinates g buf = .ok (lib_set_coordinates g buf)) := by
  by_cases hc : buf.length ≠ count_coordinates g ∨ (bufCols buf ≠ 2 ∧ bufCols buf ≠ 3)
  · refine ⟨⟨fun _ => hc, fun _ => ⟨.invalidShape, ?_⟩⟩, fun _ w => ?_, fun h1 h2 => ?_⟩
    · rw [set_coordinates, set_coordinates_with, if_pos hc]
    · rw [set_coordinates_with, if_pos hc]
    · rcases hc with h | ⟨hb, hcc⟩
      · exact absurd h1 h
      · rcases h2 with h2 | h2
        · exact absurd h2 hb
        · exact absurd h2 hcc
  · refine ⟨⟨?_, fun h => absurd h hc⟩, fun h => absurd h hc, fun _ _ => ?_⟩
    · rintro ⟨e, he⟩
      rw [set_coordinates, set_coordinates_with, if_neg hc] at he
      exact Except.noConfusion he
    · rw [set_coordinates, set_coordinates_with, if_neg hc]

/-- Witness for C7: a one-point batch with an empty buffer is rejected by
every writer. -/
theorem set_coordinates_validation_witness :
    set_coordinates_with (fun b _ => b)
        [some (.point [((0 : ℚ), (0 : ℚ), (none : Option ℚ))])] [] =
      .error .invalidShape :=
  (set_coordinates_validation [some (.point [((0 : ℚ), (0 : ℚ), (none : Option ℚ))])] []
      (by decide)).2.1
    (Or.inl (by simp [count_coordinates, countG])) _

/-- C5 (amended): in `_transform_multi_vec` the whole-array attempt's
failure — whether raised inside the user-supplied function or by
`_transform`'s post-invocation validation — always triggers the
per-coordinate retry, whose own outcome is what reaches the caller; only
a successful whole-array attempt is returned directly.  (The source's
`except Exception` wraps the entire first `_transform` call, validation
included.) -/
theorem transform_multi_vec_retry (g : Batch) (f : MultiVecFn) (iz : Bool) :
    (∀ e, _transform g (vecWrap f) iz = .error e →
      _transform_multi_vec g f iz = _transform g (scalarWrap f) iz) ∧
    (∀ r, _transform g (vecWrap f) iz = .ok r →
      _transform_multi_vec g f iz = .ok r) := by
  constructor
  · intro e he
    simp only [_transform_multi_vec, he]
  · intro r hr
    simp only [_transform_multi_vec, hr]

/-- Witness for C5's amended statement: a mapping function whose
whole-array result has a bad shape; the validation failure triggers the
per-coordinate retry. -/
theorem transform_multi_vec_retry_witness :
    _transform_multi_vec [some (.point [((0 : ℚ), (0 : ℚ), (none : Option ℚ))])]
        (MultiVecFn.mk (fun _ => .ok [[some 0], [some 0], [some 0]]) (fun r => .ok r))
        false =
      _transform [some (.point [((0 : ℚ), (0 : ℚ), (none : Option ℚ))])]
        (scalarWrap
          (MultiVecFn.mk (fun _ => .ok [[some 0], [some 0], [some 0]]) (fun r => .ok r)))
        false :=
  (transform_multi_vec_retry _ _ false).1 .badShape
    (by simp [_transform, get_coordinates, extractG, coordToRow, vecWrap,
      transposeB, transposeAuxB, bufRect, bufCols])

/-- Counterexample to C5 as stated: a mapping function whose whole-array
invocation succeeds (first conjunct) but produces a 3-column buffer where
2 columns were expected, so the post-invocation shape validation fails
(second conjunct); `_transform_multi_vec` nevertheless returns a success
via the per-coordinate retry, masking the validation failure instead of
surfacing it (third conjunct). -/
theorem transform_multi_vec_masking_counterexample :
    (MultiVecFn.mk (fun _ => .ok [[some 0], [some 0], [some 0]])
          (fun r => .ok r)).vecCall
        (transposeB (get_coordinates
          [some (.point [((0 : ℚ), (0 : ℚ), (none : Option ℚ))])] false)) =
      .ok [[some 0], [some 0], [some 0]] ∧
    _transform [some (.point [((0 : ℚ), (0 : ℚ), (none : Option ℚ))])]
        (vecWrap (MultiVecFn.mk (fun _ => .ok [[some 0], [some 0], [some 0]])
          (fun r => .ok r))) false =
      .error .badShape ∧
    _transform_multi_vec [some (.point [((0 : ℚ), (0 : ℚ), (none : Option ℚ))])]
        (MultiVecFn.mk (fun _ => .ok [[some 0], [some 0], [some 0]]) (fun r => .ok r))
        false =
      .ok [some (.point [((0 : ℚ), (0 : ℚ), (none : Option ℚ))])] := by
  refine ⟨rfl, ?_, ?_⟩
  · simp [_transform, get_coordinates, extractG, coordToRow, vecWrap,
      transposeB, transposeAuxB, bufRect, bufCols]
  · simp [_transform_multi_vec, _transform, get_coordinates, extractG, coordToRow,
      vecWrap, scalarWrap, transposeB, transposeAuxB, bufRect, bufCols,
      lib_set_coordinates, scatterG, rowToCoord, List.mapM, List.mapM.loop,
      Bind.bind, Except.bind, pure, Except.pure]

/-- Collapse half of the C6 analysis: on a dimension-homogeneous batch
the per-element include-Z resolution collapses to one uniform whole-batch
decision, which then equals "some input geometry is three-dimensional". -/
theorem transform_auto_homogeneous (geometry : Batch)
    (transformation : Buffer → Except TErr Buffer) (d : Bool)
    (hne : geometry ≠ [])
    (hd : ∀ g ∈ geometry, (coordDim g == 3) = d) :
    transform geometry transformation .auto = _transform geometry transformation d ∧
      d = geometry.any (fun g => coordDim g == 3) := by
  match geometry, hne with
  | g0 :: rest, _ =>
    have h0 : (coordDim g0 == 3) = d := hd g0 (by simp)
    have hrest : ∀ g ∈ rest, (coordDim g == 3) = d := fun g hg => hd g (by simp [hg])
    constructor
    · simp only [transform, List.map_cons]
      have hall : (rest.map (fun g => coordDim g == 3)).all
          (fun b => b == (coordDim g0 == 3)) = true := by
        rw [List.all_eq_true]
        intro b hb
        rw [List.mem_map] at hb
        obtain ⟨g, hg, rfl⟩ := hb
        rw [hrest g hg, h0]
        exact beq_self_eq_true d
      rw [if_pos hall, h0]
    · cases d with
      | true =>
        symm
        rw [List.any_eq_true]
        exact ⟨g0, by simp, h0⟩
      | false =>
        symm
        rw [List.any_eq_false]
        intro g hg
        rw [List.mem_cons] at hg
        rcases hg with rfl | hg
        · rw [h0]
          simp
        · rw [hrest g hg]
          simp

/-- The element-wise processing the amended claim C6 asserts for a mixed
batch: every element is handed to `_transform` independently, under its
own include-Z decision `get_coordinate_dimension == 3` computed for that
element.  Follows the amended claim's words, for comparison with the
source's `transform`. -/
def transform_auto_elementwise (geometry : Batch)
    (transformation : Buffer → Except TErr Buffer) : Except TErr Batch := do
  let results ← geometry.mapM (fun g => do
    let r ← _transform [g] transformation (coordDim g == 3)
    pure (r.headD none))
  pure results

/-- Traversing a list zipped with a function of itself is traversing the
list with the function computed in place. -/
theorem mapM_zip_map_self {α β γ : Type _} (l : List α) (c : α → β)
    (body : α × β → Except TErr γ) :
    (l.zip (l.map c)).mapM body = l.mapM (fun g => body (g, c g)) := by
  induction l with
  | nil => rfl
  | cons a t ih =>
    simp only [List.map_cons, List.zip_cons_cons, List.mapM_cons, ih]

/-- C6 (amended): for every non-empty batch, `transform` with the
tri-state `include_z = -1` resolves the include-Z decision per ELEMENT —
element `i` includes Z exactly when geometry `i` is three-dimensional.
On a dimension-homogeneous batch this collapses, before traversal, to a
single uniform whole-batch decision, which then equals "some input
geometry is three-dimensional"; on every mixed batch each element is
processed independently by `_transform` under its own flag
(`transform_auto_elementwise`). -/
theorem transform_auto_per_element (geometry : Batch)
    (transformation : Buffer → Except TErr Buffer) (hne : geometry ≠ []) :
    (∀ d : Bool, (∀ g ∈ geometry, (coordDim g == 3) = d) →
      transform geometry transformation .auto = _transform geometry transformation d ∧
        d = geometry.any (fun g => coordDim g == 3)) ∧
    ((¬ ∃ d : Bool, ∀ g ∈ geometry, (coordDim g == 3) = d) →
      transform geometry transformation .auto =
        transform_auto_elementwise geometry transformation) := by
  constructor
  · intro d hd
    exact transform_auto_homogeneous geometry transformation d hne hd
  · intro hmix
    match geometry, hne with
    | g0 :: rest, _ =>
      have hall : ((rest.map (fun g => coordDim g == 3)).all
          (fun b => b == (coordDim g0 == 3))) = false := by
        by_contra hcon
        rw [Bool.not_eq_false, List.all_eq_true] at hcon
        apply hmix
        refine ⟨coordDim g0 == 3, ?_⟩
        intro g hg
        rw [List.mem_cons] at hg
        rcases hg with rfl | hg
        · rfl
        · have hb := hcon _ (List.mem_map_of_mem (fun g => coordDim g == 3) hg)
          simpa using hb
      simp only [transform, List.map_cons]
      rw [if_neg (by rw [hall]; exact Bool.false_ne_true)]
      rw [show ((coordDim g0 == 3) :: rest.map (fun g => coordDim g == 3)) =
        ((g0 :: rest).map (fun g => coordDim g == 3)) from rfl]
      rw [mapM_zip_map_self]
      rfl

/-- Witness for C6's amended statement at a mixed batch (one 3-D point,
one 2-D point): `transform` with the tri-state flag processes the
elements independently, each under its own include-Z decision. -/
theorem transform_auto_per_element_witness :
    transform [some (.point [((0 : ℚ), (0 : ℚ), (some 0 : Option ℚ))]),
        some (.point [((7 : ℚ), (0 : ℚ), (none : Option ℚ))])]
        (fun b => .ok b) .auto =
      transform_auto_elementwise
        [some (.point [((0 : ℚ), (0 : ℚ), (some 0 : Option ℚ))]),
          some (.point [((7 : ℚ), (0 : ℚ), (none : Option ℚ))])]
        (fun b => .ok b) :=
  (transform_auto_per_element _ _ (by simp)).2
    (by
      rintro ⟨d, hd⟩
      have h1 := hd (some (.point [((0 : ℚ), (0 : ℚ), (some 0 : Option ℚ))])) (by simp)
      have h2 := hd (some (.point [((7 : ℚ), (0 : ℚ), (none : Option ℚ))])) (by simp)
      rw [show coordDim (some (.point [((0 : ℚ), (0 : ℚ), (some 0 : Option ℚ))])) = 3 from
        by simp [coordDim, hasZG]] at h1
      rw [show coordDim (some (.point [((7 : ℚ), (0 : ℚ), (none : Option ℚ))])) = 2 from
        by simp [coordDim, hasZG]] at h2
      simp only [show ((3 : Int) == 3) = true from by decide,
        show ((2 : Int) == 3) = false from by decide] at h1 h2
      exact Bool.noConfusion (h1.trans h2.symm))

/-- Counterexample to C6 as stated: a batch holding a 3-D point and a 2-D
point.  The per-element decisions are `[true, false]` (first conjunct),
and the batch output differs from the output under the single uniform
any-3D decision (`include_z = True` for the whole batch): a mapping
function that rewrites x to 9 only on 3-column input leaves the 2-D
point untouched on the per-element path but changes it on the uniform
path. -/
theorem transform_auto_counterexample :
    (([some (.point [((0 : ℚ), (0 : ℚ), (some 0 : Option ℚ))]),
        some (.point [((7 : ℚ), (0 : ℚ), (none : Option ℚ))])] : Batch).map
        (fun g => coordDim g == 3)) = [true, false] ∧
    transform
        [some (.point [((0 : ℚ), (0 : ℚ), (some 0 : Option ℚ))]),
          some (.point [((7 : ℚ), (0 : ℚ), (none : Option ℚ))])]
        (fun buf => .ok (buf.map (fun r => if r.length == 3 then some 9 :: r.tail else r)))
        .auto =
      .ok [some (.point [((9 : ℚ), (0 : ℚ), (some 0 : Option ℚ))]),
        some (.point [((7 : ℚ), (0 : ℚ), (none : Option ℚ))])] ∧
    transform
        [some (.point [((0 : ℚ), (0 : ℚ), (some 0 : Option ℚ))]),
          some (.point [((7 : ℚ), (0 : ℚ), (none : Option ℚ))])]
        (fun buf => .ok (buf.map (fun r => if r.length == 3 then some 9 :: r.tail else r)))
        .always =
      .ok [some (.point [((9 : ℚ), (0 : ℚ), (some 0 : Option ℚ))]),
        some (.point [((9 : ℚ), (0 : ℚ), (none : Option ℚ))])] ∧
    (((7 : ℚ), (0 : ℚ), (none : Option ℚ)) : Coord) ≠ ((9 : ℚ), (0 : ℚ), (none : Option ℚ)) := by
  refine ⟨?_, ?_, ?_, by decide⟩
  · simp [coordDim, hasZG]
  · simp [transform, coordDim, hasZG, _transform, get_coordinates, extractG,
      coordToRow, bufRect, bufCols, lib_set_coordinates, scatterG, rowToCoord,
      List.mapM, List.mapM.loop, Bind.bind, Except.bind, pure, Except.pure]
  · simp [transform, _transform, get_coordinates, extractG, coordToRow,
      bufRect, bufCols, lib_set_coordinates, scatterG, rowToCoord]

/-! ### The rebuild path (`_transform2`, `_transform2_multi_vec`) -/

mutual
/-- Modelled from the spec: `geometry.is_empty` — a geometry is empty when
it has no coordinates; a collection is empty when it has no non-empty
children. -/
def isEmptyG : Geometry → Bool
  | .point cs => cs.isEmpty
  | .lineString cs => cs.isEmpty
  | .linearRing cs => cs.isEmpty
  | .polygon shell _ => shell.isEmpty
  | .multiPoint parts => isEmptyList parts
  | .multiLineString parts => isEmptyList parts
  | .multiPolygon parts => isEmptyList parts
  | .geometryCollection parts => isEmptyList parts

/-- Child-wise emptiness. -/
def isEmptyList : List Geometry → Bool
  | [] => true
  | g :: rest => isEmptyG g && isEmptyList rest
end

/-- Modelled from the spec: ring construction (`shapely.linearrings`,
reached through the `LinearRing` constructor) closes a non-closed
coordinate sequence by appending the first coordinate (§3). -/
def closeRing (cs : List Coord) : List Coord :=
  if cs.head? = cs.getLast? then cs
  else cs ++ (match cs.head? with | some c => [c] | none => [])

/-- Embedding of `coordinates.transform_rebuild_single_part`: rebuild one
atomic part — `type(geometry)(transformation(get_coordinates(...)))` for
Point/LineString/LinearRing, and for a Polygon the exterior and each
interior ring independently.  Ring constructors close their input. -/
def transform_rebuild_single_part (g : Geometry)
    (transformation : Buffer → Except TErr Buffer) (include_z : Bool) :
    Except TErr Geometry :=
  match g with
  | .point cs =>
      (transformation (cs.map (coordToRow include_z))).map
        (fun rows => .point (rows.map rowToCoord))
  | .lineString cs =>
      (transformation (cs.map (coordToRow include_z))).map
        (fun rows => .lineString (rows.map rowToCoord))
  | .linearRing cs =>
      (transformation (cs.map (coordToRow include_z))).map
        (fun rows => .linearRing (closeRing (rows.map rowToCoord)))
  | .polygon shell holes => do
      let shellRows ← transformation (shell.map (coordToRow include_z))
      let holesNew ← holes.mapM (fun h =>
        (transformation (h.map (coordToRow include_z))).map
          (fun rows => closeRing (rows.map rowToCoord)))
      pure (.polygon (closeRing (shellRows.map rowToCoord)) holesNew)
  | g => pure g

mutual
/-- Embedding of `coordinates._transform2` (rebuild path, single-vector
mode): an empty geometry is returned at once; single-part geometries go
through `transform_rebuild_single_part`; Multi*/GeometryCollection rebuild
the same variant around the recursively transformed children. -/
def _transform2 (transformation : Buffer → Except TErr Buffer) (include_z : Bool)
    (g : Geometry) : Except TErr Geometry :=
  if isEmptyG g then .ok g
  else match g with
    | .point cs => transform_rebuild_single_part (.point cs) transformation include_z
    | .lineString cs =>
        transform_rebuild_single_part (.lineString cs) transformation include_z
    | .linearRing cs =>
        transform_rebuild_single_part (.linearRing cs) transformation include_z
    | .polygon shell holes =>
        transform_rebuild_single_part (.polygon shell holes) transformation include_z
    | .multiPoint parts => (_transform2List transformation include_z parts).map .multiPoint
    | .multiLineString parts =>
        (_transform2List transformation include_z parts).map .multiLineString
    | .multiPolygon parts =>
        (_transform2List transformation include_z parts).map .multiPolygon
    | .geometryCollection parts =>
        (_transform2List transformation include_z parts).map .geometryCollection

/-- Child-wise recursion of `_transform2` (the list comprehension over
`geometry.geoms`; the first exception aborts). -/
def _transform2List (transformation : Buffer → Except TErr Buffer) (include_z : Bool) :
    List Geometry → Except TErr (List Geometry)
  | [] => .ok []
  | g :: rest => do
      let gNew ← _transform2 transformation include_z g
      let restNew ← _transform2List transformation include_z rest
      pure (gNew :: restNew)
end

mutual
/-- Embedding of `coordinates._transform2_multi_vec` (rebuild path,
per-axis mode): an empty geometry is returned at once; a single-part
geometry first tries the whole-array wrapper and on any exception retries
with the per-coordinate wrapper; collections recurse. -/
def _transform2_multi_vec (f : MultiVecFn) (include_z : Bool) (g : Geometry) :
    Except TErr Geometry :=
  if isEmptyG g then .ok g
  else match g with
    | .point cs => tryBoth (.point cs) f include_z
    | .lineString cs => tryBoth (.lineString cs) f include_z
    | .linearRing cs => tryBoth (.linearRing cs) f include_z
    | .polygon shell holes => tryBoth (.polygon shell holes) f include_z
    | .multiPoint parts => (_transform2MVList f include_z parts).map .multiPoint
    | .multiLineString parts => (_transform2MVList f include_z parts).map .multiLineString
    | .multiPolygon parts => (_transform2MVList f include_z parts).map .multiPolygon
    | .geometryCollection parts =>
        (_transform2MVList f include_z parts).map .geometryCollection

/-- The try/except of `_transform2_multi_vec` on one atomic part. -/
def tryBoth (g : Geometry) (f : MultiVecFn) (include_z : Bool) :
    Except TErr Geometry :=
  match transform_rebuild_single_part g (vecWrap f) include_z with
  | .ok r => .ok r
  | .error _ => transform_rebuild_single_part g (scalarWrap f) include_z

/-- Child-wise recursion of `_transform2_multi_vec`. -/
def _transform2MVList (f : MultiVecFn) (include_z : Bool) :
    List Geometry → Except TErr (List Geometry)
  | [] => .ok []
  | g :: rest => do
      let gNew ← _transform2_multi_vec f include_z g
      let restNew ← _transform2MVList f include_z rest
      pure (gNew :: restNew)
end

/-- C10: for every empty geometry, both rebuild transforms return the
geometry itself, whatever the mapping function — the mapping function is
never consulted. -/
theorem transform2_empty_passthrough (g : Geometry) (hg : isEmptyG g = true) :
    (∀ (transformation : Buffer → Except TErr Buffer) (include_z : Bool),
      _transform2 transformation include_z g = .ok g) ∧
    (∀ (f : MultiVecFn) (include_z : Bool),
      _transform2_multi_vec f include_z g = .ok g) := by
  constructor
  · intro transformation include_z
    cases g <;> simp [_transform2, hg]
  · intro f include_z
    cases g <;> simp [_transform2_multi_vec, hg]

/-- Witness for C10: an empty GeometryCollection holding an empty Point
and an empty MultiPolygon passes through both rebuild transforms. -/
theorem transform2_empty_passthrough_witness :
    _transform2 (fun b => .ok b) true
        (.geometryCollection [.point [], .multiPolygon []]) =
      .ok (.geometryCollection [.point [], .multiPolygon []]) ∧
    _transform2_multi_vec
        (MultiVecFn.mk (fun c => .ok c) (fun r => .ok r)) false
        (.geometryCollection [.point [], .multiPolygon []]) =
      .ok (.geometryCollection [.point [], .multiPolygon []]) :=
  ⟨(transform2_empty_passthrough _
      (by simp [isEmptyG, isEmptyList])).1 (fun b => .ok b) true,
    (transform2_empty_passthrough _
      (by simp [isEmptyG, isEmptyList])).2
      (MultiVecFn.mk (fun c => .ok c) (fun r => .ok r)) false⟩

/-! ## Constructors (`geometry/polygon.py`, C9) -/

/-- Errors of the Python-level constructors. -/
inductive CErr where
  | topological
  | valueError
  | typeError
deriving DecidableEq

/-- What can be passed to the `LinearRing` (or as a `Polygon` shell)
constructor: an existing geometry object, or a sequence of coordinates. -/
inductive GeomInput where
  | geom (g : Geometry)
  | coords (cs : List Coord)

/-- Embedding of `LinearRing.__new__`: `None` gives LINEARRING EMPTY; an
argument that is already exactly a `LinearRing` is returned as is (the
source's `type(coordinates) == LinearRing` early return); another
`LineString` must be valid (validity is the opaque engine's judgement,
passed in as `isValidLS`) and contributes its coordinates; any other
geometry is not a coordinate sequence (`TypeError`); a coordinate
sequence of length 0 gives LINEARRING EMPTY and otherwise
`shapely.linearrings` builds the closed ring. -/
def LinearRing_new (isValidLS : List Coord → Bool) :
    Option GeomInput → Except CErr Geometry
  | none => .ok (.linearRing [])
  | some (.geom (.linearRing cs)) => .ok (.linearRing cs)
  | some (.geom (.lineString cs)) =>
      if ¬ isValidLS cs then .error .topological
      else if cs.length = 0 then .ok (.linearRing [])
      else .ok (.linearRing (closeRing cs))
  | some (.geom _) => .error .typeError
  | some (.coords cs) =>
      if cs.length = 0 then .ok (.linearRing [])
      else .ok (.linearRing (closeRing cs))

/-- Embedding of `Polygon.__new__`: `None` gives POLYGON EMPTY; a shell
that is already a `Polygon` is returned as is — before the holes are even
inspected (the source's `isinstance(shell, Polygon)` early return);
otherwise the holes each go through the `LinearRing` constructor
(`holes=[]` is passed on as absent), a non-LinearRing geometry shell goes
through the `LinearRing` constructor, an empty coordinate shell gives
POLYGON EMPTY, and `shapely.polygons` assembles the result. -/
def Polygon_new (isValidLS : List Coord → Bool) (shell : Option GeomInput)
    (holes : Option (List (List Coord))) : Except CErr Geometry :=
  match shell with
  | none => .ok (.polygon [] [])
  | some (.geom (.polygon s h)) => .ok (.polygon s h)
  | some sh =>
      let holeRings : List (List Coord) := match holes with
        | none => []
        | some hs => hs.map closeRing
      match sh with
      | .geom (.linearRing cs) => .ok (.polygon cs holeRings)
      | .geom g =>
          match LinearRing_new isValidLS (some (.geom g)) with
          | .error e => .error e
          | .ok (.linearRing cs) => .ok (.polygon cs holeRings)
          | .ok _ => .error .valueError
      | .coords cs =>
          if cs.length = 0 then .ok (.polygon [] [])
          else .ok (.polygon (closeRing cs) holeRings)

/-- C9: the `LinearRing` constructor applied to a value that is already a
`LinearRing` returns that value unchanged (for every validity oracle),
and the `Polygon` constructor applied to a shell that is already a
`Polygon` returns that shell unchanged, whatever holes are supplied. -/
theorem constructor_identity :
    (∀ (isValidLS : List Coord → Bool) (cs : List Coord),
      LinearRing_new isValidLS (some (.geom (.linearRing cs))) = .ok (.linearRing cs)) ∧
    (∀ (isValidLS : List Coord → Bool) (s : List Coord) (h : List (List Coord))
        (holes : Option (List (List Coord))),
      Polygon_new isValidLS (some (.geom (.polygon s h))) holes = .ok (.polygon s h)) :=
  ⟨fun _ _ => rfl, fun _ _ _ _ => rfl⟩

end Shapely
